import Mathlib

/-!
Verification of the Tapplet Execution Host (`src/host.rs`) of
`tari-project/tari-tapplet-lib`.

The development shallowly embeds the host's data model and operations:

* `Json` models `serde_json::Value`.  A JSON number (`JNumber`) is either an
  integer representable as `i64` (the `as_i64`-successful variants of
  `serde_json::Number`) or a finite 64-bit float (JSON text cannot denote
  NaN or infinities, and `Number::from_f64` refuses them).
* `Float64` models `f64` abstractly: a finite double is identified with its
  (shortest round-trip) decimal rendering, which Rust's `Display` for `f64`
  guarantees to be injective on distinct finite values; NaN and the two
  infinities are separate constructors.  The payload of a finite float is
  never interpreted arithmetically by the host code — floats are only
  carried through and, for table keys, rendered with `to_string`.
* `WasmValue` models `wasmer::Value`; the reference-typed and 128-bit
  variants, which the host treats uniformly as unsupported, are collapsed
  into an `other` constructor carrying a kind label.
* `LuaValue` models `mlua::Value`; a table is its list of key/value entries
  (in iteration order) and the function/userdata/thread variants are
  collapsed into `other`.  Lua reference semantics for table/function keys
  is abstracted by `luaKeyEq`, which compares primitive keys structurally
  and declares reference-kind keys unequal.
-/

/-- Model of a Rust `f64`.  A finite double is identified with its decimal
`Display` rendering (injective on distinct finite values); NaN and the two
infinities are explicit. -/
inductive Float64 where
  | nan : Float64
  | inf (neg : Bool) : Float64
  | finite (repr : String) : Float64
deriving DecidableEq

/-- Model of `f64::is_finite`, equivalently the success of
`serde_json::Number::from_f64`. -/
def Float64.isFinite : Float64 → Bool
  | .finite _ => true
  | _ => false

/-- Model of Rust `Display`/`to_string` on an `f64`. -/
def Float64.toDecimalString : Float64 → String
  | .nan => "NaN"
  | .inf true => "-inf"
  | .inf false => "inf"
  | .finite r => r

/-- Model of `serde_json::Number`: an integer on which `as_i64` succeeds, or
a finite float (`as_i64` fails, `as_f64` succeeds). -/
inductive JNumber where
  | int (i : Int)
  | float (f : Float64)
deriving DecidableEq

/-- Model of `serde_json::Value`.  An object is its list of fields in
iteration order (for the default `BTreeMap` backing, that order is sorted by
key; every theorem below holds for an arbitrary order). -/
inductive Json where
  | null : Json
  | bool (b : Bool) : Json
  | num (n : JNumber) : Json
  | str (s : String) : Json
  | arr (items : List Json) : Json
  | obj (fields : List (String × Json)) : Json

/-- Model of `HostError` from `src/host.rs`. `IoError` carries the rendered
message of the underlying `std::io::Error`. -/
inductive HostError where
  | WasmLoadError (msg : String)
  | WasmCompileError (msg : String)
  | WasmInstantiationError (msg : String)
  | LuaLoadError (msg : String)
  | LuaExecutionError (msg : String)
  | MethodNotFound (method : String)
  | ExecutionError (msg : String)
  | InvalidArguments (msg : String)
  | IoError (msg : String)
deriving DecidableEq

/-- Model of `wasmer::Value`.  `I32`/`I64` carry the integer value; `F32` is
represented by its exact widening to `f64` (the host immediately widens it
with `as f64`).  `other` stands for the `V128`, `FuncRef` and `ExternRef`
variants, which `wasm_value_to_json` treats uniformly as unsupported. -/
inductive WasmValue where
  | I32 (i : Int)
  | I64 (i : Int)
  | F32 (f : Float64)
  | F64 (f : Float64)
  | other (kind : String)
deriving DecidableEq

/-- Embedding of `WasmTappletHost::json_value_to_wasm` (src/host.rs:182-209).
The Rust error messages interpolate the offending value's `Debug` rendering;
the model keeps the fixed prefix only. -/
def json_value_to_wasm : Json → Except HostError WasmValue
  | .num (.int i) => .ok (.I64 i)
  | .num (.float f) => .ok (.F64 f)
  | .bool b => .ok (.I32 (if b then 1 else 0))
  | .str _ =>
      .error (.InvalidArguments
        "String arguments require memory management - not yet implemented")
  | _ => .error (.InvalidArguments "Unsupported argument type")

/-- Accumulating conversion loop: `for x in xs { out.push(f(x)?) }`.  Used to
embed the element loops of `json_to_wasm_args` and `wasm_results_to_json`
exactly as the Rust code writes them. -/
def pushAll (f : α → Except HostError β) : List α → List β → Except HostError (List β)
  | [], acc => .ok acc
  | x :: rest, acc =>
      match f x with
      | .error e => .error e
      | .ok w => pushAll f rest (acc ++ [w])

/-- Embedding of `WasmTappletHost::json_to_wasm_args` (src/host.rs:157-179):
an array converts element-wise, an object converts its values in iteration
order, anything else is a single argument. -/
def json_to_wasm_args : Json → Except HostError (List WasmValue)
  | .arr items => pushAll json_value_to_wasm items []
  | .obj fields => pushAll (fun kv => json_value_to_wasm kv.2) fields []
  | v => (json_value_to_wasm v).map (fun w => [w])

/-- Embedding of `WasmTappletHost::wasm_value_to_json` (src/host.rs:231-258).
`Number::from_f64` succeeds exactly on finite floats. -/
def wasm_value_to_json : WasmValue → Except HostError Json
  | .I32 i => .ok (.num (.int i))
  | .I64 i => .ok (.num (.int i))
  | .F32 f =>
      if f.isFinite then .ok (.num (.float f))
      else .error (.ExecutionError "Failed to convert F32 to JSON number")
  | .F64 f =>
      if f.isFinite then .ok (.num (.float f))
      else .error (.ExecutionError "Failed to convert F64 to JSON number")
  | .other _ => .error (.ExecutionError "Unsupported WASM value type")

/-- Embedding of `WasmTappletHost::wasm_results_to_json` (src/host.rs:212-228):
zero results map to `Null`, one result converts directly, several convert
element-wise into an array. -/
def wasm_results_to_json : List WasmValue → Except HostError Json
  | [] => .ok .null
  | [v] => wasm_value_to_json v
  | vs => (pushAll wasm_value_to_json vs []).map Json.arr

/-- A JSON value is a string (used to phrase the "string argument" clause of
the compiled-backend contract). -/
def jsonIsString : Json → Bool
  | .str _ => true
  | _ => false

/-- A JSON value on which `json_value_to_wasm` has no conversion: `Null`,
a nested `List` or a nested `Map` (the `_` arm of the Rust match). -/
def jsonWasmUnconvertible : Json → Bool
  | .null => true
  | .arr _ => true
  | .obj _ => true
  | _ => false

/-- The argument value contains a string in one of the positions reachable by
the compiled backend's conversion: at top level, as a `List` element, or as a
`Map` value. -/
def hasStringArgPos : Json → Bool
  | .str _ => true
  | .arr items => items.any jsonIsString
  | .obj fields => fields.any (fun kv => jsonIsString kv.2)
  | _ => false

/-- The argument value makes the compiled backend's conversion fail on shape
grounds: a top-level `Null`, or a `List`/`Map` element that is itself `Null`,
a `List` or a `Map`. -/
def wasmArgBad : Json → Bool
  | .null => true
  | .arr items => items.any jsonWasmUnconvertible
  | .obj fields => fields.any (fun kv => jsonWasmUnconvertible kv.2)
  | _ => false

/-- Model of `mlua::Value`.  A table is its list of key/value entries in
iteration order; `other` stands for the function, thread, userdata and
light-userdata variants, which `lua_value_to_json` treats uniformly as
unsupported. -/
inductive LuaValue where
  | nil : LuaValue
  | boolean (b : Bool) : LuaValue
  | integer (i : Int) : LuaValue
  | number (f : Float64) : LuaValue
  | str (s : String) : LuaValue
  | table (entries : List (LuaValue × LuaValue)) : LuaValue
  | other (kind : String) : LuaValue

/-- Lua raw key equality, restricted to the key shapes the host creates and
reads.  Primitive keys compare structurally; table/function keys compare by
reference in Lua, abstracted here as never equal (the host never constructs
two aliases of one reference key). -/
def luaKeyEq : LuaValue → LuaValue → Bool
  | .boolean x, .boolean y => x == y
  | .integer x, .integer y => x == y
  | .number x, .number y => x == y
  | .str x, .str y => x == y
  | _, _ => false

/-- Model of `Table::get`: raw lookup of a key, `nil` when absent. -/
def luaTableGet : List (LuaValue × LuaValue) → LuaValue → LuaValue
  | [], _ => .nil
  | kv :: rest, k => if luaKeyEq kv.1 k then kv.2 else luaTableGet rest k

/-- Model of `Table::set`: setting `nil` removes the key, otherwise the key's
entry is replaced in place or appended. -/
def luaTableSet (es : List (LuaValue × LuaValue)) (k v : LuaValue) :
    List (LuaValue × LuaValue) :=
  match v with
  | .nil => es.filter (fun kv => !(luaKeyEq kv.1 k))
  | _ =>
      if es.any (fun kv => luaKeyEq kv.1 k) then
        es.map (fun kv => if luaKeyEq kv.1 k then (kv.1, v) else kv)
      else es ++ [(k, v)]

/-- The table has an entry at integer key `i`. -/
def luaHasIndex (es : List (LuaValue × LuaValue)) (i : Nat) : Bool :=
  es.any (fun kv => luaKeyEq kv.1 (.integer (Int.ofNat i)))

/-- Model of `Table::len`, Lua's `#` (a border of the sequence part).  `#` may
return any border; the model deterministically returns the length of the
dense prefix `1..=k` of present integer keys, which is always a border and is
exact for the dense tables the value bridge builds. -/
def luaBorder (es : List (LuaValue × LuaValue)) : Nat :=
  ((List.range' 1 es.length).takeWhile (fun i => luaHasIndex es i)).length

mutual

/-- Embedding of `LuaTappletHost::json_to_lua_value` (src/host.rs:452-505).
Integers must fit `i32` (the interpreter's integer type), arrays populate a
fresh table at 1-based sequential integer keys, objects populate a fresh
table at string keys; in both loops `Table::set` of a `nil` value stores
nothing. -/
def json_to_lua_value : Json → Except HostError LuaValue
  | .null => .ok .nil
  | .bool b => .ok (.boolean b)
  | .num (.int i) =>
      if -2147483648 ≤ i ∧ i ≤ 2147483647 then .ok (.integer i)
      else .error (.InvalidArguments ("Integer out of range for Lua: " ++ toString i))
  | .num (.float f) => .ok (.number f)
  | .str s => .ok (.str s)
  | .arr items => (jsonArrToTable items 0 []).map .table
  | .obj fields => (jsonObjToTable fields []).map .table
termination_by v => (sizeOf v, 0)
decreasing_by all_goals (simp_wf; omega)

/-- Array loop of `json_to_lua_value`: `for (i, item) in arr.iter().enumerate()
{ table.set(i + 1, convert(item)?)? }`. -/
def jsonArrToTable : List Json → Nat → List (LuaValue × LuaValue) →
    Except HostError (List (LuaValue × LuaValue))
  | [], _, acc => .ok acc
  | item :: rest, i, acc =>
      match json_to_lua_value item with
      | .error e => .error e
      | .ok lv => jsonArrToTable rest (i + 1) (luaTableSet acc (.integer (Int.ofNat (i + 1))) lv)
termination_by l _ _ => (sizeOf l, 1)
decreasing_by all_goals (simp_wf; omega)

/-- Object loop of `json_to_lua_value`: `for (key, val) in obj
{ table.set(key.as_str(), convert(val)?)? }`. -/
def jsonObjToTable : List (String × Json) → List (LuaValue × LuaValue) →
    Except HostError (List (LuaValue × LuaValue))
  | [], acc => .ok acc
  | (k, v) :: rest, acc =>
      match json_to_lua_value v with
      | .error e => .error e
      | .ok lv => jsonObjToTable rest (luaTableSet acc (.str k) lv)
termination_by l _ => (sizeOf l, 1)
decreasing_by all_goals (simp_wf; omega)

end

/-- Key stringification of the object branch of `lua_value_to_json`
(src/host.rs:552-564): string keys pass through, integer and float keys
render via `to_string`, every other key kind is an execution error. -/
def luaKeyToString : LuaValue → Except HostError String
  | .str s => .ok s
  | .integer i => .ok (toString i)
  | .number f => .ok f.toDecimalString
  | _ => .error (.ExecutionError "Unsupported table key type")

/-- A Lua value is one of the three key kinds `lua_value_to_json` can
stringify. -/
def luaKeyConvertible : LuaValue → Bool
  | .str _ => true
  | .integer _ => true
  | .number _ => true
  | _ => false

/-- Lookup of `luaTableGet` is no larger than the table, so the array branch
of `lua_value_to_json` below terminates. -/
theorem sizeOf_luaTableGet_lt (es : List (LuaValue × LuaValue)) (k : LuaValue) :
    sizeOf (luaTableGet es k) < 1 + sizeOf es := by
  induction es with
  | nil => simp [luaTableGet]
  | cons kv rest ih =>
      simp only [luaTableGet]
      split
      · cases kv with | mk k' v' => simp; omega
      · cases kv with | mk k' v' => simp at ih ⊢; omega

mutual

/-- Embedding of `LuaTappletHost::lua_value_to_json` (src/host.rs:508-576).
A table whose sequence length is positive reads indices `1..=len` as an
array; otherwise all pairs are read as an object with stringified keys. -/
def lua_value_to_json : LuaValue → Except HostError Json
  | .nil => .ok .null
  | .boolean b => .ok (.bool b)
  | .integer i => .ok (.num (.int i))
  | .number f =>
      if f.isFinite then .ok (.num (.float f))
      else .error (.ExecutionError "Failed to convert Lua number to JSON")
  | .str s => .ok (.str s)
  | .table es =>
      if 0 < luaBorder es then (luaTableToArr es 1 (luaBorder es)).map Json.arr
      else (luaTableToObj es).map Json.obj
  | .other _ => .error (.ExecutionError "Unsupported Lua value type")
termination_by v => (sizeOf v, 1, 0)
decreasing_by
  · simp_wf
    apply Prod.Lex.right
    apply Prod.Lex.left
    omega
  · simp_wf
    apply Prod.Lex.right
    apply Prod.Lex.left
    omega

/-- Array branch loop of `lua_value_to_json`: `for i in 1..=len
{ arr.push(convert(table.get(i)?)?) }`. -/
def luaTableToArr (es : List (LuaValue × LuaValue)) (i len : Nat) :
    Except HostError (List Json) :=
  if len < i then .ok []
  else
    match lua_value_to_json (luaTableGet es (.integer (Int.ofNat i))) with
    | .error e => .error e
    | .ok jv =>
        match luaTableToArr es (i + 1) len with
        | .error e => .error e
        | .ok rest => .ok (jv :: rest)
termination_by (1 + sizeOf es, 0, len + 1 - i)
decreasing_by
  · simp_wf
    apply Prod.Lex.left
    exact sizeOf_luaTableGet_lt es (.integer (Int.ofNat i))
  · simp_wf
    apply Prod.Lex.right
    apply Prod.Lex.right
    omega

/-- Object branch loop of `lua_value_to_json`: iterate all pairs, stringify
the key, convert the value. -/
def luaTableToObj : List (LuaValue × LuaValue) → Except HostError (List (String × Json))
  | [] => .ok []
  | (k, v) :: rest =>
      match luaKeyToString k with
      | .error e => .error e
      | .ok ks =>
          match lua_value_to_json v with
          | .error e => .error e
          | .ok jv =>
              match luaTableToObj rest with
              | .error e => .error e
              | .ok tail => .ok ((ks, jv) :: tail)
termination_by rem => (1 + sizeOf rem, 0, 0)
decreasing_by
  · simp_wf
    apply Prod.Lex.left
    simp +arith
  · simp_wf
    apply Prod.Lex.left
    simp +arith

end

/-- A JSON value is `Null`. -/
def jsonIsNull : Json → Bool
  | .null => true
  | _ => false

mutual

/-- The JSON value is representable in the Lua native domain and free of the
empty-list ambiguity: integers fit `i32` (otherwise conversion is an
`InvalidArguments` error), floats are finite (a `serde_json` invariant),
containers hold no `Null` (a Lua table cannot store `nil`), lists are
non-empty (an empty table reads back as a map), and object keys are distinct
(a `serde_json::Map` invariant). -/
def luaRepresentable : Json → Bool
  | .null => true
  | .bool _ => true
  | .num (.int i) => decide (-2147483648 ≤ i ∧ i ≤ 2147483647)
  | .num (.float f) => f.isFinite
  | .str _ => true
  | .arr items => !items.isEmpty && luaRepList items
  | .obj fields => decide ((fields.map Prod.fst).Nodup) && luaRepFields fields
termination_by v => (sizeOf v, 0)
decreasing_by all_goals (simp_wf; omega)

/-- Element condition of `luaRepresentable` for list items. -/
def luaRepList : List Json → Bool
  | [] => true
  | x :: rest => !jsonIsNull x && luaRepresentable x && luaRepList rest
termination_by l => (sizeOf l, 1)
decreasing_by all_goals (simp_wf; omega)

/-- Element condition of `luaRepresentable` for object field values. -/
def luaRepFields : List (String × Json) → Bool
  | [] => true
  | (_, v) :: rest => !jsonIsNull v && luaRepresentable v && luaRepFields rest
termination_by l => (sizeOf l, 1)
decreasing_by all_goals (simp_wf; omega)

end

/-- An exported WASM function: state-passing over the store, returning the
result values or a runtime error message. -/
structure WasmFunc (σ : Type) where
  call : σ → List WasmValue → σ × Except String (List WasmValue)

/-- Model of `WasmTappletHost` as `run` observes it: the manifest allowlist
`config.api.methods` and the instance's export table. The store state is the
type parameter. -/
structure WasmHost (σ : Type) where
  methods : List String
  getFunction : String → Option (WasmFunc σ)

/-- Observable backend work performed by `WasmTappletHost::run`: export
lookup, argument conversion, and the WASM call itself. -/
inductive WasmEvent where
  | lookup (name : String)
  | convertArgs
  | call (name : String) (args : List WasmValue)
deriving DecidableEq

/-- Embedding of `WasmTappletHost::run` (src/host.rs:129-154), instrumented
with the list of backend events it performs, in order.  Returns the final
store, the events, and the result. -/
def WasmHost.run (host : WasmHost σ) (store : σ) (method : String) (args : Json) :
    σ × List WasmEvent × Except HostError Json :=
  if host.methods.contains method then
    match host.getFunction method with
    | none => (store, [.lookup method], .error (.MethodNotFound method))
    | some f =>
        match json_to_wasm_args args with
        | .error e => (store, [.lookup method, .convertArgs], .error e)
        | .ok wargs =>
            match f.call store wargs with
            | (store', .error msg) =>
                (store', [.lookup method, .convertArgs, .call method wargs],
                  .error (.ExecutionError msg))
            | (store', .ok results) =>
                (store', [.lookup method, .convertArgs, .call method wargs],
                  wasm_results_to_json results)
  else (store, [], .error (.MethodNotFound method))

/-- Model of the `MinotariTappletApiV1` capability handle: both operations
thread an abstract host-storage state `σ`.  Cloning the handle yields the
same value, matching `Clone` semantics. -/
structure ApiHandle (σ : Type) where
  append_data : σ → String → String → σ × Except String Unit
  load_data_entries : σ → String → σ × Except String (List String)

/-- A capability closure registered into the interpreter's globals: the
captured (cloned) handle together with which of the two operations it
drives. -/
inductive CapClosure (σ : Type) where
  | appendData (api : ApiHandle σ)
  | loadDataEntries (api : ApiHandle σ)

/-- Build the 1-based Lua table of strings that `rust_load_data_entries`
returns. -/
def entriesToTable (entries : List String) : List (LuaValue × LuaValue) :=
  entries.enum.map (fun p => (.integer (Int.ofNat (p.1 + 1)), .str p.2))

/-- Invoking a registered capability closure from script code
(src/host.rs:404-429): the closure blocks on the asynchronous operation and
its effect on the handle's state is complete before it returns.
`rust_append_data` takes `(slot, value)` strings and returns nothing
(`nil`); `rust_load_data_entries` takes a `slot` string and returns the
entries as a 1-based table. -/
def CapClosure.invoke : CapClosure σ → List LuaValue → σ → σ × Except String LuaValue
  | .appendData api, [.str slot, .str value], s =>
      match api.append_data s slot value with
      | (s', .ok _) => (s', .ok .nil)
      | (s', .error e) => (s', .error e)
  | .loadDataEntries api, [.str slot], s =>
      match api.load_data_entries s slot with
      | (s', .ok entries) => (s', .ok (.table (entriesToTable entries)))
      | (s', .error e) => (s', .error e)
  | _, _, s => (s, .error "bad argument to capability function")

/-- The capability environment a running script observes: for each global
name, the capability closure registered there, if any. -/
def GlobalsView (σ : Type) := String → Option (CapClosure σ)

/-- A script function defined by the loaded Lua chunk: called with the
converted argument value, it sees the current capability environment and
threads the capability state, returning a Lua value or raising a Lua
error. -/
structure ScriptFun (σ : Type) where
  call : LuaValue → GlobalsView σ → σ → σ × Except String LuaValue

/-- A value stored in the interpreter's global namespace, as `run` observes
it: a script-defined function or a registered capability closure. -/
inductive GlobalVal (σ : Type) where
  | scriptFun (f : ScriptFun σ)
  | capFun (c : CapClosure σ)

/-- The interpreter's global namespace, as `run` observes it: the mapping
from names to stored values (`run` only ever gets and sets single names, so
the table is modelled by its lookup function). -/
def LuaGlobals (σ : Type) := String → Option (GlobalVal σ)

/-- Model of `globals().get(name)`. -/
def LuaGlobals.get (g : LuaGlobals σ) (name : String) : Option (GlobalVal σ) :=
  g name

/-- Model of `globals().set(name, v)`. -/
def LuaGlobals.set (g : LuaGlobals σ) (name : String) (v : GlobalVal σ) : LuaGlobals σ :=
  fun m => if m == name then some v else g m

/-- The capability environment induced by the globals. -/
def LuaGlobals.capView (g : LuaGlobals σ) : GlobalsView σ := fun name =>
  match g.get name with
  | some (.capFun c) => some c
  | _ => none

/-- Observable work performed by `LuaTappletHost::run`: global function
lookup, argument conversion, capability registration, and the script call. -/
inductive LuaEvent where
  | lookupGlobal (name : String)
  | convertArgs
  | setGlobal (name : String)
  | invoke (name : String)
deriving DecidableEq

/-- Model of `LuaTappletHost` as `run` observes it: the manifest allowlist
and the capability handle `self.api`. -/
structure LuaHost (σ : Type) where
  methods : List String
  api : ApiHandle σ

/-- The capability registration step of `LuaTappletHost::run`
(src/host.rs:404-436): fresh closures over a clone of the current handle are
set at the two fixed global names, overwriting any prior entries. -/
def registerCaps (g : LuaGlobals σ) (api : ApiHandle σ) : LuaGlobals σ :=
  (g.set "minotari_append_data" (.capFun (.appendData api))).set
    "minotari_load_data_entries" (.capFun (.loadDataEntries api))

/-- Embedding of `LuaTappletHost::run` (src/host.rs:385-449), instrumented
with the list of backend events it performs, in order: allowlist check;
global function lookup; argument conversion; capability (re-)registration;
script call; result conversion.  Returns the final globals, the final
capability state, the events, and the result. -/
def LuaHost.run (host : LuaHost σ) (g : LuaGlobals σ) (capSt : σ)
    (method : String) (args : Json) :
    LuaGlobals σ × σ × List LuaEvent × Except HostError Json :=
  if host.methods.contains method then
    match g.get method with
    | some (.scriptFun f) =>
        match json_to_lua_value args with
        | .error e => (g, capSt, [.lookupGlobal method, .convertArgs], .error e)
        | .ok luaArgs =>
            let g' := registerCaps g host.api
            let events := [.lookupGlobal method, .convertArgs,
              .setGlobal "minotari_append_data", .setGlobal "minotari_load_data_entries",
              .invoke method]
            match f.call luaArgs g'.capView capSt with
            | (capSt', .error msg) => (g', capSt', events, .error (.LuaExecutionError msg))
            | (capSt', .ok lv) => (g', capSt', events, lua_value_to_json lv)
    | _ => (g, capSt, [.lookupGlobal method], .error (.MethodNotFound method))
  else (g, capSt, [], .error (.MethodNotFound method))

/-- Setup actions a `LuaTappletHost` constructor performs on the fresh
interpreter, in order. -/
inductive LuaSetupEvent where
  | sandbox (enabled : Bool)
  | execChunk (code : String)
deriving DecidableEq

/-- A fresh interpreter and the setup actions applied to it.  Load errors of
`lua.load(..).exec()` only abort construction and are orthogonal to the
sandbox state, so they are not modelled. -/
structure LuaInterp where
  sandboxed : Bool
  setupTrace : List LuaSetupEvent
deriving DecidableEq

/-- Model of `Lua::new()`: Luau starts with sandbox mode disabled. -/
def luaNew : LuaInterp := ⟨false, []⟩

/-- Model of `Lua::sandbox(b)`. -/
def LuaInterp.sandbox (l : LuaInterp) (b : Bool) : LuaInterp :=
  ⟨b, l.setupTrace ++ [.sandbox b]⟩

/-- Model of `lua.load(code).exec()` during construction. -/
def LuaInterp.loadExec (l : LuaInterp) (code : String) : LuaInterp :=
  ⟨l.sandboxed, l.setupTrace ++ [.execChunk code]⟩

/-- Embedding of the interpreter setup of `LuaTappletHost::new`
(src/host.rs:344-362): the file at `lua_path` is read to the string
`luaCode`, then a fresh interpreter is sandboxed and the chunk executed. -/
def luaTappletHostNew (luaCode : String) : LuaInterp :=
  (luaNew.sandbox true).loadExec luaCode

/-- Embedding of the interpreter setup of `LuaTappletHost::from_string`
(src/host.rs:365-375): a fresh interpreter executes the chunk, with no
sandbox call. -/
def luaTappletHostFromString (luaCode : String) : LuaInterp :=
  luaNew.loadExec luaCode

/-- Script of spec scenario C, modelled from the spec: the function body
calls the `append_data` capability global with fixed string arguments and
then returns `true`; an unregistered capability global is a Lua "call a nil
value" error, and a capability error propagates out of the script. -/
def appendScript (slot value : String) : ScriptFun σ :=
  ⟨fun _ caps s =>
    match caps "minotari_append_data" with
    | some c =>
        match c.invoke [.str slot, .str value] s with
        | (s', .ok _) => (s', .ok (.boolean true))
        | (s', .error e) => (s', .error e)
    | none => (s, .error "attempt to call a nil value")⟩

/-- A recording capability handle for witnesses: the state is the log of
`append_data` calls. -/
def recApi : ApiHandle (List (String × String)) :=
  ⟨fun s slot value => (s ++ [(slot, value)], .ok ()),
   fun s _ => (s, .ok [])⟩

/-- Element-wise monadic map over `Except`: the specification-side
formulation of the conversion loops (convert each element in order, stopping
at the first error). -/
def exceptMapList (f : α → Except HostError β) : List α → Except HostError (List β)
  | [] => .ok []
  | x :: rest =>
      match f x with
      | .error e => .error e
      | .ok y =>
          match exceptMapList f rest with
          | .error e => .error e
          | .ok ys => .ok (y :: ys)

/-- Spec-side conversion of one table pair to an object field: stringify the
key, then convert the value. -/
def luaPairToField (kv : LuaValue × LuaValue) : Except HostError (String × Json) :=
  (luaKeyToString kv.1).bind (fun ks => (lua_value_to_json kv.2).map (fun jv => (ks, jv)))

/-- The dense table entries `(start, l0), (start+1, l1), ...` that the array
branch of `json_to_lua_value` builds. -/
def seqEntries (start : Nat) : List LuaValue → List (LuaValue × LuaValue)
  | [] => []
  | l :: rest => (.integer (Int.ofNat start), l) :: seqEntries (start + 1) rest

/-- The string-keyed table entries that the object branch of
`json_to_lua_value` builds. -/
def strEntries : List String → List LuaValue → List (LuaValue × LuaValue)
  | k :: ks, l :: ls => (.str k, l) :: strEntries ks ls
  | _, _ => []

theorem pushAll_eq_exceptMapList (f : α → Except HostError β) (l : List α) (acc : List β) :
    pushAll f l acc = (exceptMapList f l).map (fun ws => acc ++ ws) := by
  induction l generalizing acc with
  | nil => simp [pushAll, exceptMapList, Except.map]
  | cons x rest ih =>
      cases hfx : f x with
      | error e => simp [pushAll, exceptMapList, hfx, Except.map]
      | ok w =>
          cases hr : exceptMapList f rest with
          | error e => simp [pushAll, exceptMapList, hfx, hr, ih, Except.map]
          | ok ws => simp [pushAll, exceptMapList, hfx, hr, ih, Except.map]

theorem exceptMapList_map (f : β → Except HostError γ) (g : α → β) (l : List α) :
    exceptMapList f (l.map g) = exceptMapList (fun x => f (g x)) l := by
  induction l with
  | nil => simp [exceptMapList]
  | cons x rest ih => simp only [List.map_cons, exceptMapList, ih]

theorem json_value_to_wasm_shape (v : Json) :
    (∃ w, json_value_to_wasm v = .ok w) ∨
      (∃ m, json_value_to_wasm v = .error (.InvalidArguments m)) := by
  cases v with
  | num n => cases n <;> simp [json_value_to_wasm]
  | _ => simp [json_value_to_wasm]

theorem exceptMapList_shape (f : α → Except HostError β) (l : List α)
    (hf : ∀ x ∈ l, (∃ w, f x = .ok w) ∨ (∃ m, f x = .error (.InvalidArguments m))) :
    (∃ ws, exceptMapList f l = .ok ws) ∨
      (∃ m, exceptMapList f l = .error (.InvalidArguments m)) := by
  induction l with
  | nil => exact Or.inl ⟨[], rfl⟩
  | cons x rest ih =>
      rcases hf x (List.mem_cons_self x rest) with ⟨w, hw⟩ | ⟨m, hm⟩
      · rcases ih (fun y hy => hf y (List.mem_cons_of_mem x hy)) with ⟨ws, hws⟩ | ⟨m, hm⟩
        · exact Or.inl ⟨w :: ws, by simp [exceptMapList, hw, hws]⟩
        · exact Or.inr ⟨m, by simp [exceptMapList, hw, hm]⟩
      · exact Or.inr ⟨m, by simp [exceptMapList, hm]⟩

theorem exceptMapList_ok_mem (f : α → Except HostError β) (l : List α) (ys : List β)
    (h : exceptMapList f l = .ok ys) : ∀ x ∈ l, ∃ y, f x = .ok y := by
  induction l generalizing ys with
  | nil => intro x hx; cases hx
  | cons z rest ih =>
      intro x hx
      revert h
      cases hz : f z with
      | error e => simp [exceptMapList, hz]
      | ok w =>
          cases hr : exceptMapList f rest with
          | error e => simp [exceptMapList, hz, hr]
          | ok ws =>
              intro _
              rcases List.mem_cons.mp hx with rfl | hx'
              · exact ⟨w, hz⟩
              · exact ih ws hr x hx'

theorem json_to_wasm_args_single_shape (v : Json)
    (h : json_to_wasm_args v = (json_value_to_wasm v).map (fun w => [w])) :
    (∃ ws, json_to_wasm_args v = .ok ws) ∨
      (∃ m, json_to_wasm_args v = .error (.InvalidArguments m)) := by
  rcases json_value_to_wasm_shape v with ⟨w, hw⟩ | ⟨m, hm⟩
  · exact Or.inl ⟨[w], by simp [h, hw, Except.map]⟩
  · exact Or.inr ⟨m, by simp [h, hm, Except.map]⟩

theorem json_to_wasm_args_shape (args : Json) :
    (∃ ws, json_to_wasm_args args = .ok ws) ∨
      (∃ m, json_to_wasm_args args = .error (.InvalidArguments m)) := by
  cases args with
  | arr items =>
      rw [show json_to_wasm_args (.arr items) = pushAll json_value_to_wasm items [] from rfl,
        pushAll_eq_exceptMapList]
      rcases exceptMapList_shape json_value_to_wasm items
          (fun x _ => json_value_to_wasm_shape x) with ⟨ws, hws⟩ | ⟨m, hm⟩
      · exact Or.inl ⟨ws, by simp [hws, Except.map]⟩
      · exact Or.inr ⟨m, by simp [hm, Except.map]⟩
  | obj fields =>
      rw [show json_to_wasm_args (.obj fields) =
        pushAll (fun kv => json_value_to_wasm kv.2) fields [] from rfl,
        pushAll_eq_exceptMapList]
      rcases exceptMapList_shape (fun kv => json_value_to_wasm kv.2) fields
          (fun x _ => json_value_to_wasm_shape x.2) with ⟨ws, hws⟩ | ⟨m, hm⟩
      · exact Or.inl ⟨ws, by simp [hws, Except.map]⟩
      · exact Or.inr ⟨m, by simp [hm, Except.map]⟩
  | _ => exact json_to_wasm_args_single_shape _ rfl

theorem wasm_unconv_not_ok (x : Json) (hx : jsonWasmUnconvertible x = true) :
    ∀ w, json_value_to_wasm x ≠ .ok w := by
  cases x <;> simp_all [jsonWasmUnconvertible, json_value_to_wasm]

theorem wasm_string_not_ok (x : Json) (hx : jsonIsString x = true) :
    ∀ w, json_value_to_wasm x ≠ .ok w := by
  cases x <;> simp_all [jsonIsString, json_value_to_wasm]

theorem json_to_wasm_args_arr_invalid (items : List Json) (x : Json) (hx : x ∈ items)
    (hfail : ∀ w, json_value_to_wasm x ≠ .ok w) :
    ∃ m, json_to_wasm_args (.arr items) = .error (.InvalidArguments m) := by
  rcases json_to_wasm_args_shape (.arr items) with ⟨ws, hws⟩ | ⟨m, hm⟩
  · exfalso
    rw [show json_to_wasm_args (.arr items) = pushAll json_value_to_wasm items [] from rfl,
      pushAll_eq_exceptMapList] at hws
    cases hml : exceptMapList json_value_to_wasm items with
    | error e => rw [hml] at hws; simp [Except.map] at hws
    | ok ys =>
        rcases exceptMapList_ok_mem _ _ _ hml x hx with ⟨y, hy⟩
        exact hfail y hy
  · exact ⟨m, hm⟩

theorem json_to_wasm_args_obj_invalid (fields : List (String × Json)) (kv : String × Json)
    (hkv : kv ∈ fields) (hfail : ∀ w, json_value_to_wasm kv.2 ≠ .ok w) :
    ∃ m, json_to_wasm_args (.obj fields) = .error (.InvalidArguments m) := by
  rcases json_to_wasm_args_shape (.obj fields) with ⟨ws, hws⟩ | ⟨m, hm⟩
  · exfalso
    rw [show json_to_wasm_args (.obj fields) =
      pushAll (fun kv => json_value_to_wasm kv.2) fields [] from rfl,
      pushAll_eq_exceptMapList] at hws
    cases hml : exceptMapList (fun kv => json_value_to_wasm kv.2) fields with
    | error e => rw [hml] at hws; simp [Except.map] at hws
    | ok ys =>
        rcases exceptMapList_ok_mem _ _ _ hml kv hkv with ⟨y, hy⟩
        exact hfail y hy
  · exact ⟨m, hm⟩

theorem json_to_wasm_args_invalid_of_bad (args : Json) (hbad : wasmArgBad args = true) :
    ∃ m, json_to_wasm_args args = .error (.InvalidArguments m) := by
  cases args with
  | null => exact ⟨"Unsupported argument type", rfl⟩
  | arr items =>
      rcases List.any_eq_true.mp hbad with ⟨x, hx, hux⟩
      exact json_to_wasm_args_arr_invalid items x hx (wasm_unconv_not_ok x hux)
  | obj fields =>
      rcases List.any_eq_true.mp hbad with ⟨kv, hkv, hukv⟩
      exact json_to_wasm_args_obj_invalid fields kv hkv (wasm_unconv_not_ok kv.2 hukv)
  | bool b => cases hbad
  | num n => cases hbad
  | str s => cases hbad

theorem json_to_wasm_args_invalid_of_string (args : Json) (hs : hasStringArgPos args = true) :
    ∃ m, json_to_wasm_args args = .error (.InvalidArguments m) := by
  cases args with
  | str s =>
      exact ⟨"String arguments require memory management - not yet implemented", rfl⟩
  | arr items =>
      rcases List.any_eq_true.mp hs with ⟨x, hx, hsx⟩
      exact json_to_wasm_args_arr_invalid items x hx (wasm_string_not_ok x hsx)
  | obj fields =>
      rcases List.any_eq_true.mp hs with ⟨kv, hkv, hskv⟩
      exact json_to_wasm_args_obj_invalid fields kv hkv (wasm_string_not_ok kv.2 hskv)
  | null => cases hs
  | bool b => cases hs
  | num n => cases hs

theorem claim_C3 (items : List Json) (fields : List (String × Json)) (i : Int)
    (f : Float64) (b : Bool) (s : String) (args : Json)
    (hs : hasStringArgPos args = true) :
    json_to_wasm_args (.arr items) = exceptMapList json_value_to_wasm items
    ∧ json_to_wasm_args (.obj fields) =
        exceptMapList json_value_to_wasm (fields.map Prod.snd)
    ∧ json_value_to_wasm (.num (.int i)) = .ok (.I64 i)
    ∧ json_value_to_wasm (.num (.float f)) = .ok (.F64 f)
    ∧ json_value_to_wasm (.bool b) = .ok (.I32 (if b then 1 else 0))
    ∧ json_value_to_wasm (.str s) =
        .error (.InvalidArguments
          "String arguments require memory management - not yet implemented")
    ∧ (∃ msg, json_to_wasm_args args = .error (.InvalidArguments msg)) := by
  refine ⟨?_, ?_, rfl, rfl, rfl, rfl, json_to_wasm_args_invalid_of_string args hs⟩
  · rw [show json_to_wasm_args (.arr items) = pushAll json_value_to_wasm items [] from rfl,
      pushAll_eq_exceptMapList]
    cases exceptMapList json_value_to_wasm items <;> simp [Except.map]
  · rw [show json_to_wasm_args (.obj fields) =
      pushAll (fun kv => json_value_to_wasm kv.2) fields [] from rfl,
      pushAll_eq_exceptMapList, exceptMapList_map]
    cases exceptMapList (fun kv => json_value_to_wasm kv.2) fields <;> simp [Except.map]

theorem claim_C3_witness :
    json_to_wasm_args (.arr [.num (.int 2), .num (.int 3)]) = .ok [.I64 2, .I64 3]
    ∧ (∃ msg, json_to_wasm_args (.arr [.str "x"]) = .error (.InvalidArguments msg)) := by
  have h := claim_C3 [.num (.int 2), .num (.int 3)] [] 0 .nan true "x"
    (.arr [.str "x"]) (by decide)
  refine ⟨?_, h.2.2.2.2.2.2⟩
  rw [h.1]
  rfl

theorem claim_C9 {σ : Type} (host : WasmHost σ) (store : σ) (m : String) (args : Json)
    (f : WasmFunc σ) (hm : host.methods.contains m = true)
    (hf : host.getFunction m = some f) (hbad : wasmArgBad args = true) :
    (∀ a : Json, (∃ ws, json_to_wasm_args a = .ok ws) ∨
        (∃ msg, json_to_wasm_args a = .error (.InvalidArguments msg)))
    ∧ (∃ msg, host.run store m args =
        (store, [.lookup m, .convertArgs], .error (.InvalidArguments msg))) := by
  refine ⟨json_to_wasm_args_shape, ?_⟩
  rcases json_to_wasm_args_invalid_of_bad args hbad with ⟨msg, hmsg⟩
  have hm' : m ∈ host.methods := by simpa using hm
  exact ⟨msg, by simp [WasmHost.run, hm', hf, hmsg]⟩

theorem claim_C9_witness :
    ∃ msg, WasmHost.run
        (⟨["m"], fun _ => some ⟨fun s _ => (s, .ok [])⟩⟩ : WasmHost Unit) () "m" .null
      = ((), [.lookup "m", .convertArgs], .error (.InvalidArguments msg)) :=
  (claim_C9 (⟨["m"], fun _ => some ⟨fun s _ => (s, .ok [])⟩⟩ : WasmHost Unit) () "m" .null
    ⟨fun s _ => (s, .ok [])⟩ (by decide) rfl (by decide)).2

theorem claim_C4 (i : Int) :
    ((-2147483648 ≤ i ∧ i ≤ 2147483647) →
      json_to_lua_value (.num (.int i)) = .ok (.integer i))
    ∧ ((i < -2147483648 ∨ 2147483647 < i) →
      json_to_lua_value (.num (.int i)) =
        .error (.InvalidArguments ("Integer out of range for Lua: " ++ toString i)))
    ∧ json_to_lua_value (.num (.int 2147483648)) =
        .error (.InvalidArguments
          ("Integer out of range for Lua: " ++ toString (2147483648 : Int)))
    ∧ json_to_lua_value (.num (.int 2147483647)) = .ok (.integer 2147483647) := by
  refine ⟨?_, ?_, ?_, ?_⟩
  · intro h
    simp only [json_to_lua_value]
    rw [if_pos h]
  · intro h
    have hn : ¬(-2147483648 ≤ i ∧ i ≤ 2147483647) := by omega
    simp only [json_to_lua_value]
    rw [if_neg hn]
  · simp only [json_to_lua_value]
    rw [if_neg (by norm_num)]
  · simp only [json_to_lua_value]
    rw [if_pos (by norm_num)]

theorem claim_C4_witness :
    json_to_lua_value (.num (.int 2147483647)) = .ok (.integer 2147483647)
    ∧ json_to_lua_value (.num (.int 2147483648)) =
        .error (.InvalidArguments
          ("Integer out of range for Lua: " ++ toString (2147483648 : Int))) :=
  ⟨(claim_C4 2147483647).1 (by norm_num),
   (claim_C4 2147483648).2.1 (Or.inr (by norm_num))⟩

theorem claim_C6 (v : WasmValue) (vs : List WasmValue) (i j : Int) (f g : Float64)
    (k : String) (hvs : 2 ≤ vs.length) (hf : f.isFinite = true) (hg : g.isFinite = false) :
    wasm_results_to_json [] = .ok .null
    ∧ wasm_results_to_json [v] = wasm_value_to_json v
    ∧ wasm_results_to_json vs = (exceptMapList wasm_value_to_json vs).map Json.arr
    ∧ wasm_value_to_json (.I32 i) = .ok (.num (.int i))
    ∧ wasm_value_to_json (.I64 j) = .ok (.num (.int j))
    ∧ wasm_value_to_json (.F32 f) = .ok (.num (.float f))
    ∧ wasm_value_to_json (.F64 f) = .ok (.num (.float f))
    ∧ wasm_value_to_json (.F32 g) =
        .error (.ExecutionError "Failed to convert F32 to JSON number")
    ∧ wasm_value_to_json (.F64 g) =
        .error (.ExecutionError "Failed to convert F64 to JSON number")
    ∧ wasm_value_to_json (.other k) =
        .error (.ExecutionError "Unsupported WASM value type") := by
  refine ⟨rfl, rfl, ?_, rfl, rfl, ?_, ?_, ?_, ?_, rfl⟩
  · match vs, hvs with
    | a :: b :: rest, _ =>
        rw [show wasm_results_to_json (a :: b :: rest) =
          (pushAll wasm_value_to_json (a :: b :: rest) []).map Json.arr from rfl,
          pushAll_eq_exceptMapList]
        cases exceptMapList wasm_value_to_json (a :: b :: rest) <;> simp [Except.map]
  · simp [wasm_value_to_json, hf]
  · simp [wasm_value_to_json, hf]
  · simp [wasm_value_to_json, hg]
  · simp [wasm_value_to_json, hg]

theorem claim_C6_witness :
    wasm_results_to_json [.I32 1, .F64 (.finite "2.5")] =
      .ok (.arr [.num (.int 1), .num (.float (.finite "2.5"))]) := by
  have h := claim_C6 (.I32 0) [.I32 1, .F64 (.finite "2.5")] 0 0 (.finite "2.5") .nan "v128"
    (by decide) rfl rfl
  rw [h.2.2.1]
  rfl

theorem claim_C1 {σ τ : Type} (whost : WasmHost σ) (store : σ) (lhost : LuaHost τ)
    (g : LuaGlobals τ) (capSt : τ) (m : String) (args : Json)
    (hw : whost.methods.contains m = false) (hl : lhost.methods.contains m = false) :
    whost.run store m args = (store, [], .error (.MethodNotFound m))
    ∧ lhost.run g capSt m args = (g, capSt, [], .error (.MethodNotFound m)) := by
  have hw' : m ∉ whost.methods := by simpa using hw
  have hl' : m ∉ lhost.methods := by simpa using hl
  constructor
  · simp [WasmHost.run, hw']
  · simp [LuaHost.run, hl']

theorem claim_C1_witness :
    WasmHost.run (⟨["greet"], fun _ => none⟩ : WasmHost Unit) () "missing" .null
      = ((), [], .error (.MethodNotFound "missing"))
    ∧ LuaHost.run (⟨["greet"], ⟨fun s _ _ => (s, .ok ()), fun s _ => (s, .ok [])⟩⟩ :
        LuaHost Unit) (fun _ => none) () "missing" .null
      = (fun _ => none, (), [], .error (.MethodNotFound "missing")) :=
  claim_C1 (⟨["greet"], fun _ => none⟩ : WasmHost Unit) ()
    (⟨["greet"], ⟨fun s _ _ => (s, .ok ()), fun s _ => (s, .ok [])⟩⟩ : LuaHost Unit)
    (fun _ => none) () "missing" .null (by decide) (by decide)

theorem claim_C10 (code : String) :
    (luaTappletHostNew code).sandboxed = true
    ∧ (luaTappletHostFromString code).sandboxed = false
    ∧ (luaTappletHostNew code).setupTrace = [.sandbox true, .execChunk code]
    ∧ (luaTappletHostFromString code).setupTrace = [.execChunk code] :=
  ⟨rfl, rfl, rfl, rfl⟩

theorem luaTableToArr_eq (es : List (LuaValue × LuaValue)) (len i : Nat) :
    luaTableToArr es i len =
      exceptMapList (fun idx => lua_value_to_json (luaTableGet es (.integer (Int.ofNat idx))))
        (List.range' i (len + 1 - i)) := by
  generalize hn : len + 1 - i = n
  induction n generalizing i with
  | zero =>
      have hlt : len < i := by omega
      rw [luaTableToArr]
      simp [hlt, exceptMapList]
  | succ n ih =>
      have hge : ¬(len < i) := by omega
      have hr : List.range' i (n + 1) = i :: List.range' (i + 1) n := by
        simp [List.range'_succ]
      rw [luaTableToArr, if_neg hge, hr]
      simp only [exceptMapList]
      rw [ih (i + 1) (by omega)]
      cases hv : lua_value_to_json (luaTableGet es (.integer (Int.ofNat i))) with
      | error e => rfl
      | ok jv =>
          cases exceptMapList
            (fun idx => lua_value_to_json (luaTableGet es (.integer (Int.ofNat idx))))
            (List.range' (i + 1) n) <;> rfl

theorem luaTableToObj_eq (es : List (LuaValue × LuaValue)) :
    luaTableToObj es = exceptMapList luaPairToField es := by
  induction es with
  | nil => simp [luaTableToObj, exceptMapList]
  | cons kv rest ih =>
      cases kv with
      | mk k v =>
          rw [luaTableToObj]
          cases hk : luaKeyToString k with
          | error e => simp [exceptMapList, luaPairToField, hk, Except.bind]
          | ok ks =>
              cases hv : lua_value_to_json v with
              | error e => simp [exceptMapList, luaPairToField, hk, hv, Except.bind, Except.map]
              | ok jv =>
                  rw [ih]
                  cases hr : exceptMapList luaPairToField rest with
                  | error e =>
                      simp [exceptMapList, luaPairToField, hk, hv, hr, Except.bind, Except.map]
                  | ok tail =>
                      simp [exceptMapList, luaPairToField, hk, hv, hr, Except.bind, Except.map]

theorem claim_C5 (es : List (LuaValue × LuaValue)) (k : LuaValue) (sKey : String)
    (ki : Int) (kf f : Float64) :
    (0 < luaBorder es → lua_value_to_json (.table es) =
      (exceptMapList
        (fun idx => lua_value_to_json (luaTableGet es (.integer (Int.ofNat idx))))
        (List.range' 1 (luaBorder es))).map Json.arr)
    ∧ (luaBorder es = 0 → lua_value_to_json (.table es) =
        (exceptMapList luaPairToField es).map Json.obj)
    ∧ luaKeyToString (.str sKey) = .ok sKey
    ∧ luaKeyToString (.integer ki) = .ok (toString ki)
    ∧ luaKeyToString (.number kf) = .ok kf.toDecimalString
    ∧ (luaKeyConvertible k = false →
        luaKeyToString k = .error (.ExecutionError "Unsupported table key type"))
    ∧ lua_value_to_json (.table []) = .ok (.obj [])
    ∧ (f.isFinite = false → lua_value_to_json (.number f) =
        .error (.ExecutionError "Failed to convert Lua number to JSON")) := by
  refine ⟨?_, ?_, rfl, rfl, rfl, ?_, ?_, ?_⟩
  · intro h
    simp only [lua_value_to_json]
    rw [if_pos h, luaTableToArr_eq]
    have : luaBorder es + 1 - 1 = luaBorder es := by omega
    rw [this]
  · intro h
    simp only [lua_value_to_json]
    rw [if_neg (by omega), luaTableToObj_eq]
  · intro h
    cases k <;> simp_all [luaKeyConvertible, luaKeyToString]
  · simp [lua_value_to_json, luaBorder, luaTableToObj, Except.map]
  · intro h
    simp [lua_value_to_json, h]

theorem claim_C5_witness :
    lua_value_to_json (.table [(.integer 1, .boolean true)]) = .ok (.arr [.bool true])
    ∧ lua_value_to_json (.table [(.str "a", .integer 2)]) =
        .ok (.obj [("a", .num (.int 2))]) := by
  have h1 := (claim_C5 [(.integer 1, .boolean true)] .nil "k" 0 .nan .nan).1 (by decide)
  have h2 := (claim_C5 [(.str "a", .integer 2)] .nil "k" 0 .nan .nan).2.1 (by decide)
  constructor
  · rw [h1]
    have hb : luaBorder [(.integer 1, .boolean true)] = 1 := by decide
    rw [hb]
    simp [List.range', exceptMapList, luaTableGet, luaKeyEq, lua_value_to_json, Except.map]
  · rw [h2]
    simp [exceptMapList, luaPairToField, luaKeyToString, lua_value_to_json,
      Except.map, Except.bind]


theorem LuaGlobals.get_set_self (g : LuaGlobals σ) (n : String) (v : GlobalVal σ) :
    (g.set n v).get n = some v := by
  simp [LuaGlobals.get, LuaGlobals.set]

theorem LuaGlobals.get_set_ne (g : LuaGlobals σ) (n n' : String) (v : GlobalVal σ)
    (h : (n' == n) = false) : (g.set n v).get n' = g.get n' := by
  simp [LuaGlobals.get, LuaGlobals.set, h]

theorem registerCaps_append (g : LuaGlobals σ) (api : ApiHandle σ) :
    (registerCaps g api).get "minotari_append_data" = some (.capFun (.appendData api)) := by
  unfold registerCaps
  rw [LuaGlobals.get_set_ne _ _ _ _ (by decide), LuaGlobals.get_set_self]

theorem registerCaps_load (g : LuaGlobals σ) (api : ApiHandle σ) :
    (registerCaps g api).get "minotari_load_data_entries"
      = some (.capFun (.loadDataEntries api)) := by
  unfold registerCaps
  rw [LuaGlobals.get_set_self]

theorem claim_C7 {σ : Type} (host : LuaHost σ) (g : LuaGlobals σ) (capSt : σ)
    (m : String) (args : Json) (f : ScriptFun σ) (a : LuaValue)
    (hm : host.methods.contains m = true)
    (hg : g.get m = some (.scriptFun f))
    (ha : json_to_lua_value args = .ok a) :
    (registerCaps g host.api).get "minotari_append_data"
        = some (.capFun (.appendData host.api))
    ∧ (registerCaps g host.api).get "minotari_load_data_entries"
        = some (.capFun (.loadDataEntries host.api))
    ∧ host.run g capSt m args =
        (registerCaps g host.api,
         (f.call a (registerCaps g host.api).capView capSt).1,
         [.lookupGlobal m, .convertArgs, .setGlobal "minotari_append_data",
          .setGlobal "minotari_load_data_entries", .invoke m],
         match (f.call a (registerCaps g host.api).capView capSt).2 with
         | .error msg => .error (.LuaExecutionError msg)
         | .ok lv => lua_value_to_json lv) := by
  refine ⟨registerCaps_append g host.api, registerCaps_load g host.api, ?_⟩
  have hm' : m ∈ host.methods := by simpa using hm
  rcases hc : f.call a (registerCaps g host.api).capView capSt with ⟨capSt', r⟩
  cases r with
  | error msg => simp [LuaHost.run, hm', hg, ha, hc]
  | ok lv => simp [LuaHost.run, hm', hg, ha, hc]

theorem claim_C7_witness :
    (registerCaps (fun n => if n == "go" then
        some (.scriptFun ⟨fun _ _ s => (s, .ok .nil)⟩) else none)
      (⟨fun s _ _ => (s, .ok ()), fun s _ => (s, .ok [])⟩ : ApiHandle Unit)).get
        "minotari_append_data"
      = some (.capFun (.appendData ⟨fun s _ _ => (s, .ok ()), fun s _ => (s, .ok [])⟩))
    ∧ (registerCaps (fun n => if n == "go" then
        some (.scriptFun ⟨fun _ _ s => (s, .ok .nil)⟩) else none)
      (⟨fun s _ _ => (s, .ok ()), fun s _ => (s, .ok [])⟩ : ApiHandle Unit)).get
        "minotari_load_data_entries"
      = some (.capFun (.loadDataEntries ⟨fun s _ _ => (s, .ok ()), fun s _ => (s, .ok [])⟩)) := by
  have h := claim_C7 (⟨["go"], ⟨fun s _ _ => (s, .ok ()), fun s _ => (s, .ok [])⟩⟩ :
      LuaHost Unit)
    (fun n => if n == "go" then some (.scriptFun ⟨fun _ _ s => (s, .ok .nil)⟩) else none)
    () "go" .null ⟨fun _ _ s => (s, .ok .nil)⟩ .nil
    (by decide) (by simp [LuaGlobals.get]) (by simp [json_to_lua_value])
  exact ⟨h.1, h.2.1⟩

theorem capView_registerCaps_append (g : LuaGlobals σ) (api : ApiHandle σ) :
    (registerCaps g api).capView "minotari_append_data" = some (.appendData api) := by
  simp [LuaGlobals.capView, registerCaps_append]

theorem claim_C8 {σ : Type} (host : LuaHost σ) (g : LuaGlobals σ) (capSt capSt' : σ)
    (m slot value : String) (args : Json) (a : LuaValue)
    (hm : host.methods.contains m = true)
    (hg : g.get m = some (.scriptFun (appendScript slot value)))
    (ha : json_to_lua_value args = .ok a)
    (hok : host.api.append_data capSt slot value = (capSt', .ok ())) :
    host.run g capSt m args =
      (registerCaps g host.api, capSt',
       [.lookupGlobal m, .convertArgs, .setGlobal "minotari_append_data",
        .setGlobal "minotari_load_data_entries", .invoke m],
       .ok (.bool true)) := by
  have hm' : m ∈ host.methods := by simpa using hm
  have hcall : (appendScript slot value : ScriptFun σ).call a
      (registerCaps g host.api).capView capSt = (capSt', .ok (.boolean true)) := by
    simp only [appendScript, capView_registerCaps_append, CapClosure.invoke, hok]
  simp [LuaHost.run, hm', hg, ha, hcall, lua_value_to_json]

theorem claim_C8_witness :
    LuaHost.run (⟨["store"], recApi⟩ : LuaHost (List (String × String)))
      (fun n => if n == "store" then
        some (.scriptFun (appendScript "profile" "x=1")) else none)
      [] "store" .null =
      (registerCaps (fun n => if n == "store" then
          some (.scriptFun (appendScript "profile" "x=1")) else none) recApi,
       [("profile", "x=1")],
       [.lookupGlobal "store", .convertArgs, .setGlobal "minotari_append_data",
        .setGlobal "minotari_load_data_entries", .invoke "store"],
       .ok (.bool true)) :=
  claim_C8 (⟨["store"], recApi⟩ : LuaHost (List (String × String)))
    (fun n => if n == "store" then
      some (.scriptFun (appendScript "profile" "x=1")) else none)
    [] [("profile", "x=1")] "store" "profile" "x=1" .null .nil
    (by decide) (by simp [LuaGlobals.get]) (by simp [json_to_lua_value]) rfl

theorem seqEntries_length (ls : List LuaValue) :
    ∀ start, (seqEntries start ls).length = ls.length := by
  induction ls with
  | nil => intro start; rfl
  | cons l rest ih => intro start; simp [seqEntries, ih]

theorem luaHasIndex_seqEntries (ls : List LuaValue) :
    ∀ start i, start ≤ i → i < start + ls.length →
      luaHasIndex (seqEntries start ls) i = true := by
  induction ls with
  | nil =>
      intro start i h1 h2
      exfalso
      simp at h2
      omega
  | cons l rest ih =>
      intro start i h1 h2
      have h2' : i < start + 1 + rest.length := by
        simp at h2
        omega
      rcases Nat.eq_or_lt_of_le h1 with rfl | hlt
      · simp [luaHasIndex, seqEntries, luaKeyEq]
      · have := ih (start + 1) i (by omega) h2'
        simp only [luaHasIndex, seqEntries, List.any_cons] at this ⊢
        rw [this]
        simp

theorem takeWhile_all_true (p : α → Bool) (l : List α) (h : ∀ x ∈ l, p x = true) :
    l.takeWhile p = l := by
  induction l with
  | nil => rfl
  | cons x rest ih =>
      rw [List.takeWhile_cons, h x (List.mem_cons_self x rest)]
      simp [ih (fun y hy => h y (List.mem_cons_of_mem x hy))]

theorem luaBorder_seqEntries (ls : List LuaValue) :
    luaBorder (seqEntries 1 ls) = ls.length := by
  unfold luaBorder
  rw [seqEntries_length]
  rw [takeWhile_all_true]
  · simp
  · intro i hi
    have := List.mem_range'_1.mp hi
    exact luaHasIndex_seqEntries ls 1 i this.1 (by omega)

theorem luaHasIndex_strEntries (ks : List String) (ls : List LuaValue) (i : Nat) :
    luaHasIndex (strEntries ks ls) i = false := by
  induction ks generalizing ls with
  | nil => simp [luaHasIndex, strEntries]
  | cons k ks ih =>
      cases ls with
      | nil => simp [luaHasIndex, strEntries]
      | cons l ls' =>
          have := ih ls'
          unfold luaHasIndex at this ⊢
          simp only [strEntries, List.any_cons, this]
          simp [luaKeyEq]

theorem luaBorder_strEntries (ks : List String) (ls : List LuaValue) :
    luaBorder (strEntries ks ls) = 0 := by
  unfold luaBorder
  cases h : (strEntries ks ls).length with
  | zero => simp
  | succ n =>
      rw [List.range'_succ, List.takeWhile_cons, luaHasIndex_strEntries]
      rfl

theorem luaTableGet_seqEntries (ls : List LuaValue) :
    ∀ (start j : Nat), j < ls.length →
      luaTableGet (seqEntries start ls) (.integer (Int.ofNat (start + j))) = ls.getD j .nil := by
  induction ls with
  | nil => intro start j hj; simp at hj
  | cons l rest ih =>
      intro start j hj
      cases j with
      | zero =>
          simp [seqEntries, luaTableGet, luaKeyEq]
      | succ j' =>
          have hne : (Int.ofNat start == Int.ofNat (start + (j' + 1))) = false := by
            simp
            omega
          simp only [seqEntries, luaTableGet, luaKeyEq, hne, if_neg]
          have := ih (start + 1) j' (by simpa using hj)
          rw [show start + 1 + j' = start + (j' + 1) from by omega] at this
          simpa using this

theorem luaTableSet_fresh (es : List (LuaValue × LuaValue)) (k v : LuaValue)
    (hv : v ≠ .nil) (hk : es.any (fun kv => luaKeyEq kv.1 k) = false) :
    luaTableSet es k v = es ++ [(k, v)] := by
  have hmatch : luaTableSet es k v =
      if es.any (fun kv => luaKeyEq kv.1 k) then
        es.map (fun kv => if luaKeyEq kv.1 k then (kv.1, v) else kv)
      else es ++ [(k, v)] := by
    cases v with
    | nil => exact absurd rfl hv
    | boolean b => rfl
    | integer i => rfl
    | number f => rfl
    | str s => rfl
    | table t => rfl
    | other o => rfl
  rw [hmatch, hk]
  simp

theorem jsonArrToTable_eq (items : List Json) (ls : List LuaValue)
    (hconv : List.Forall₂ (fun x l => json_to_lua_value x = .ok l ∧ l ≠ .nil) items ls) :
    ∀ (i : Nat) (acc : List (LuaValue × LuaValue)),
      (∀ p ∈ acc, ∃ j : Nat, 1 ≤ j ∧ j ≤ i ∧ p.1 = .integer (Int.ofNat j)) →
      jsonArrToTable items i acc = .ok (acc ++ seqEntries (i + 1) ls) := by
  induction hconv with
  | nil =>
      intro i acc hacc
      simp [jsonArrToTable, seqEntries]
  | @cons x l xs ls' hxl hrest ih =>
      intro i acc hacc
      have hfresh : acc.any (fun kv => luaKeyEq kv.1 (.integer (Int.ofNat (i + 1)))) = false := by
        rw [List.any_eq_false]
        intro p hp
        rcases hacc p hp with ⟨j, hj1, hj2, hpk⟩
        rw [hpk]
        simp [luaKeyEq]
        omega
      simp only [jsonArrToTable, hxl.1]
      rw [luaTableSet_fresh acc _ l hxl.2 hfresh]
      have hacc' : ∀ p ∈ acc ++ [(LuaValue.integer (Int.ofNat (i + 1)), l)],
          ∃ j : Nat, 1 ≤ j ∧ j ≤ i + 1 ∧ p.1 = .integer (Int.ofNat j) := by
        intro p hp
        rcases List.mem_append.mp hp with hp' | hp'
        · rcases hacc p hp' with ⟨j, hj1, hj2, hpk⟩
          exact ⟨j, hj1, by omega, hpk⟩
        · rcases List.mem_singleton.mp hp' with rfl
          exact ⟨i + 1, by omega, by omega, rfl⟩
      rw [ih (i + 1) _ hacc']
      simp [seqEntries, List.append_assoc]

theorem jsonObjToTable_eq (fields : List (String × Json)) (ls : List LuaValue)
    (hconv : List.Forall₂ (fun kv l => json_to_lua_value kv.2 = .ok l ∧ l ≠ .nil) fields ls) :
    ∀ acc : List (LuaValue × LuaValue),
      (fields.map Prod.fst).Nodup →
      (∀ p ∈ acc, ∃ s, p.1 = .str s ∧ s ∉ fields.map Prod.fst) →
      jsonObjToTable fields acc = .ok (acc ++ strEntries (fields.map Prod.fst) ls) := by
  induction hconv with
  | nil =>
      intro acc hnd hacc
      simp [jsonObjToTable, strEntries]
  | @cons kv l rest ls' hkvl hrest ih =>
      intro acc hnd hacc
      rcases kv with ⟨k, v⟩
      have hfresh : acc.any (fun p => luaKeyEq p.1 (.str k)) = false := by
        rw [List.any_eq_false]
        intro p hp
        rcases hacc p hp with ⟨s, hpk, hs⟩
        rw [hpk]
        have : s ≠ k := by
          intro h
          subst h
          exact hs (by simp)
        simp [luaKeyEq, this]
      simp only [jsonObjToTable, hkvl.1]
      rw [luaTableSet_fresh acc _ l hkvl.2 hfresh]
      have hsplit : (∀ x : Json, (k, x) ∉ rest) ∧ (rest.map Prod.fst).Nodup := by
        simpa using hnd
      have hnd' : (rest.map Prod.fst).Nodup := hsplit.2
      have hk_not : k ∉ rest.map Prod.fst := by
        intro hc
        rcases List.mem_map.mp hc with ⟨⟨k', v'⟩, hmem, hfst⟩
        cases hfst
        exact hsplit.1 v' hmem
      have hacc' : ∀ p ∈ acc ++ [(LuaValue.str k, l)],
          ∃ s, p.1 = .str s ∧ s ∉ rest.map Prod.fst := by
        intro p hp
        rcases List.mem_append.mp hp with hp' | hp'
        · rcases hacc p hp' with ⟨s, hpk, hs⟩
          exact ⟨s, hpk, fun hc => hs (by simp [hc])⟩
        · rcases List.mem_singleton.mp hp' with rfl
          exact ⟨k, rfl, hk_not⟩
      rw [ih _ hnd' hacc']
      simp [strEntries, List.append_assoc]

theorem exceptMapList_readback (es : List (LuaValue × LuaValue)) :
    ∀ (items : List Json) (ls : List LuaValue) (start : Nat),
      List.Forall₂ (fun x l => lua_value_to_json l = .ok x) items ls →
      (∀ j, j < ls.length →
        luaTableGet es (.integer (Int.ofNat (start + j))) = ls.getD j .nil) →
      exceptMapList
        (fun idx => lua_value_to_json (luaTableGet es (.integer (Int.ofNat idx))))
        (List.range' start ls.length) = .ok items := by
  intro items ls start hback
  induction hback generalizing start with
  | nil =>
      intro hget
      simp [exceptMapList]
  | @cons x l xs ls' hxl hrest ih =>
      intro hget
      have hlen : (l :: ls').length = ls'.length + 1 := rfl
      rw [hlen, List.range'_succ]
      have h0 : luaTableGet es (.integer (Int.ofNat start)) = l := by
        have := hget 0 (by simp)
        simpa using this
      have hget' : ∀ j, j < ls'.length →
          luaTableGet es (.integer (Int.ofNat (start + 1 + j))) = ls'.getD j .nil := by
        intro j hj
        have := hget (j + 1) (by simp; omega)
        rw [show start + (j + 1) = start + 1 + j from by omega] at this
        simpa using this
      simp only [exceptMapList, h0, hxl, ih (start + 1) hget']

theorem objReadBack (fields : List (String × Json)) (ls : List LuaValue)
    (hback : List.Forall₂ (fun kv l => lua_value_to_json l = .ok kv.2) fields ls) :
    luaTableToObj (strEntries (fields.map Prod.fst) ls) = .ok fields := by
  induction hback with
  | nil => simp [strEntries, luaTableToObj]
  | @cons kv l rest ls' hkvl hrest ih =>
      rcases kv with ⟨k, v⟩
      simp only [List.map_cons, strEntries, luaTableToObj, luaKeyToString, hkvl, ih]

theorem luaRoundtripAux (n : Nat) : ∀ v : Json, sizeOf v ≤ n → luaRepresentable v = true →
    ∃ l, json_to_lua_value v = .ok l ∧ lua_value_to_json l = .ok v ∧
      (jsonIsNull v = false → l ≠ .nil) := by
  induction n with
  | zero =>
      intro v hv
      exfalso
      cases v <;> simp at hv
  | succ n ihn =>
      intro v hv hrep
      cases v with
      | null =>
          exact ⟨.nil, by simp [json_to_lua_value], by simp [lua_value_to_json],
            by simp [jsonIsNull]⟩
      | bool b =>
          exact ⟨.boolean b, by simp [json_to_lua_value], by simp [lua_value_to_json],
            by simp⟩
      | num nn =>
          cases nn with
          | int i =>
              have hr : -2147483648 ≤ i ∧ i ≤ 2147483647 := by
                simpa [luaRepresentable] using hrep
              refine ⟨.integer i, ?_, by simp [lua_value_to_json], by simp⟩
              simp only [json_to_lua_value]
              rw [if_pos hr]
          | float f =>
              have hf : f.isFinite = true := by simpa [luaRepresentable] using hrep
              refine ⟨.number f, by simp [json_to_lua_value], ?_, by simp⟩
              simp [lua_value_to_json, hf]
      | str s =>
          exact ⟨.str s, by simp [json_to_lua_value], by simp [lua_value_to_json], by simp⟩
      | arr items =>
          have hrep2 := hrep
          simp only [luaRepresentable, Bool.and_eq_true, Bool.not_eq_true'] at hrep2
          obtain ⟨hne, hlist⟩ := hrep2
          have hb : ∀ x ∈ items, sizeOf x ≤ n := by
            intro x hx
            have h1 := List.sizeOf_lt_of_mem hx
            have h2 : 1 + sizeOf items ≤ n + 1 := by simpa using hv
            omega
          have buildList : ∀ (items' : List Json), (∀ x ∈ items', sizeOf x ≤ n) →
              luaRepList items' = true →
              ∃ ls, List.Forall₂ (fun x l =>
                (json_to_lua_value x = .ok l ∧ l ≠ .nil) ∧
                  lua_value_to_json l = .ok x) items' ls := by
            intro items'
            induction items' with
            | nil => exact fun _ _ => ⟨[], List.Forall₂.nil⟩
            | cons x xs ihx =>
                intro hb' hlist'
                simp only [luaRepList, Bool.and_eq_true, Bool.not_eq_true'] at hlist'
                obtain ⟨⟨hnn, hxr⟩, hxs⟩ := hlist'
                obtain ⟨l, h1, h2, h3⟩ := ihn x (hb' x (by simp)) hxr
                obtain ⟨ls', hF⟩ := ihx (fun y hy => hb' y (List.mem_cons_of_mem x hy)) hxs
                exact ⟨l :: ls', List.Forall₂.cons ⟨⟨h1, h3 hnn⟩, h2⟩ hF⟩
          obtain ⟨ls, hF⟩ := buildList items hb hlist
          have hconv := List.Forall₂.imp (fun a b h => h.1) hF
          have hback := List.Forall₂.imp (fun a b h => h.2) hF
          have hlen : items.length = ls.length := List.Forall₂.length_eq hF
          have hnil : items ≠ [] := by
            intro h
            subst h
            simp at hne
          have hlen0 : 0 < ls.length := by
            have := List.length_pos.mpr hnil
            omega
          have hfwd : json_to_lua_value (.arr items) = .ok (.table (seqEntries 1 ls)) := by
            simp only [json_to_lua_value]
            rw [jsonArrToTable_eq items ls hconv 0 [] (by intro p hp; cases hp)]
            simp [Except.map]
          have hborder : luaBorder (seqEntries 1 ls) = ls.length := luaBorder_seqEntries ls
          have hbwd : lua_value_to_json (.table (seqEntries 1 ls)) = .ok (.arr items) := by
            simp only [lua_value_to_json]
            rw [if_pos (by rw [hborder]; omega), luaTableToArr_eq, hborder,
              show ls.length + 1 - 1 = ls.length from by omega,
              exceptMapList_readback (seqEntries 1 ls) items ls 1 hback
                (fun j hj => luaTableGet_seqEntries ls 1 j hj)]
            rfl
          exact ⟨.table (seqEntries 1 ls), hfwd, hbwd, by simp⟩
      | obj fields =>
          have hrep2 := hrep
          simp only [luaRepresentable, Bool.and_eq_true, decide_eq_true_eq] at hrep2
          obtain ⟨hnd, hfl⟩ := hrep2
          have hb : ∀ kv ∈ fields, sizeOf kv.2 ≤ n := by
            intro kv hkv
            have h1 := List.sizeOf_lt_of_mem hkv
            have h2 : 1 + sizeOf fields ≤ n + 1 := by simpa using hv
            rcases kv with ⟨k, v2⟩
            simp at h1 ⊢
            omega
          have buildFields : ∀ (fields' : List (String × Json)),
              (∀ kv ∈ fields', sizeOf kv.2 ≤ n) → luaRepFields fields' = true →
              ∃ ls, List.Forall₂ (fun kv l =>
                (json_to_lua_value kv.2 = .ok l ∧ l ≠ .nil) ∧
                  lua_value_to_json l = .ok kv.2) fields' ls := by
            intro fields'
            induction fields' with
            | nil => exact fun _ _ => ⟨[], List.Forall₂.nil⟩
            | cons kv rest ihx =>
                intro hb' hfl'
                rcases kv with ⟨k, v2⟩
                simp only [luaRepFields, Bool.and_eq_true, Bool.not_eq_true'] at hfl'
                obtain ⟨⟨hnn, hvr⟩, hrest⟩ := hfl'
                obtain ⟨l, h1, h2, h3⟩ := ihn v2 (hb' (k, v2) (by simp)) hvr
                obtain ⟨ls', hG⟩ := ihx (fun y hy => hb' y (List.mem_cons_of_mem _ hy)) hrest
                exact ⟨l :: ls', List.Forall₂.cons ⟨⟨h1, h3 hnn⟩, h2⟩ hG⟩
          obtain ⟨ls, hF⟩ := buildFields fields hb hfl
          have hconv := List.Forall₂.imp (fun a b h => h.1) hF
          have hback := List.Forall₂.imp (fun a b h => h.2) hF
          have hfwd : json_to_lua_value (.obj fields) =
              .ok (.table (strEntries (fields.map Prod.fst) ls)) := by
            simp only [json_to_lua_value]
            rw [jsonObjToTable_eq fields ls hconv [] hnd (by intro p hp; cases hp)]
            simp [Except.map]
          have hbwd : lua_value_to_json (.table (strEntries (fields.map Prod.fst) ls)) =
              .ok (.obj fields) := by
            simp only [lua_value_to_json]
            rw [if_neg (by rw [luaBorder_strEntries]; omega),
              objReadBack fields ls hback]
            rfl
          exact ⟨.table (strEntries (fields.map Prod.fst) ls), hfwd, hbwd, by simp⟩

theorem claim_C2 (v : Json) (hrep : luaRepresentable v = true) :
    (json_to_lua_value v).bind lua_value_to_json = .ok v := by
  obtain ⟨l, h1, h2, _⟩ := luaRoundtripAux (sizeOf v) v le_rfl hrep
  rw [h1]
  exact h2

theorem claim_C2_counterexample :
    (json_to_lua_value (.arr [])).bind lua_value_to_json = .ok (.obj [])
    ∧ Json.obj [] ≠ Json.arr [] := by
  constructor
  · have h1 : json_to_lua_value (.arr []) = .ok (.table []) := by
      simp [json_to_lua_value, jsonArrToTable, Except.map]
    rw [h1]
    show lua_value_to_json (.table []) = .ok (.obj [])
    simp [lua_value_to_json, luaBorder, luaTableToObj, Except.map]
  · intro h
    cases h

theorem claim_C2_witness :
    (json_to_lua_value (.obj [("a", .str "hi")])).bind lua_value_to_json
      = .ok (.obj [("a", .str "hi")]) :=
  claim_C2 (.obj [("a", .str "hi")])
    (by simp [luaRepresentable, luaRepFields, jsonIsNull])
